import Mathlib

/-!
Verification of the espra/espra repository's specification against its code.

The repository's `src/` tree contains the `osexit` test mock
(`src/pkg/osexit/osexit.go`), the `alphafmt` command (`src/unnamed/part_000`),
the XON parser's test harness (`TestParse`) and the XON format README.
The XON scanner/parser/decoder implementation itself is not under `src/`,
so its operations are modelled from the specification, as flagged in the
doc comments below.
-/

namespace Osexit

/-- State of the osexit mock: the `called` and `status` package variables of
`src/pkg/osexit/osexit.go` (the mutex only guards concurrent access and is
not part of the sequential state). -/
structure ExitState where
  called : Bool
  status : Int
  deriving DecidableEq, Repr

/-- `Reset` from osexit.go: sets `called = false` and `status = 0`. -/
def Reset (_ : ExitState) : ExitState := { called := false, status := 0 }

/-- `Set` from osexit.go calls `Reset` and returns `mockExit`; its effect on
the state is exactly `Reset`. -/
def SetState (s : ExitState) : ExitState := Reset s

/-- `mockExit` from osexit.go: if `called` is already true the call is a
no-op, otherwise it records `called = true` and `status = code`. -/
def mockExit (code : Int) (s : ExitState) : ExitState :=
  if s.called then s else { called := true, status := code }

/-- `Called` from osexit.go: reads the `called` flag. -/
def Called (s : ExitState) : Bool := s.called

/-- `Status` from osexit.go: reads the recorded status code. -/
def Status (s : ExitState) : Int := s.status

/-- Runs a sequence of calls to the function returned by `Set`, in order. -/
def runExits (codes : List Int) (s : ExitState) : ExitState :=
  codes.foldl (fun st c => mockExit c st) s

theorem runExits_of_called (codes : List Int) (s : ExitState)
    (h : s.called = true) : runExits codes s = s := by
  induction codes with
  | nil => rfl
  | cons c cs ih =>
    simp only [runExits, List.foldl_cons, mockExit, h, if_true]
    exact ih

end Osexit

namespace Alphafmt

/-- Result of the per-file branch of alphafmt's `main` loop for one file:
whether the path is printed (under `-l`), whether the file is rewritten
(under `-w`), and whether the formatted bytes go to stdout. -/
structure FileAction where
  printPath : Bool
  writeFile : Bool
  writeStdout : Bool
  deriving DecidableEq, Repr

/-- `formatFile` from alphafmt: reads the file's bytes `src`, formats them
with `formatSource` (abstracted here as the function argument `fmt`, since
it delegates to Go's parser/printer), and returns
`(!bytes.Equal(src, formatted), formatted)`. -/
def formatFile (fmt : List Nat → List Nat) (src : List Nat) : Bool × List Nat :=
  let formatted := fmt src
  (!(src == formatted), formatted)

/-- The body of alphafmt's `main` loop for one file: `changed, out :=
formatFile(path)`; print the path if `-l` and changed; write the file if
`-w` and changed; otherwise write to stdout unless `-l`. -/
def mainFileStep (l w : Bool) (fmt : List Nat → List Nat) (src : List Nat) :
    FileAction :=
  let r := formatFile fmt src
  { printPath := l && r.1
    writeFile := w && r.1
    writeStdout := !(w && r.1) && !l }

end Alphafmt

namespace Xon

/-- Modelled from the spec: the decoder's error outcome for a leaf string
that does not satisfy the target kind's grammar (`TypeCoercionError`); the
implementing Go code is not under `src/`. -/
inductive CoerceErr where
  | typeCoercion
  deriving DecidableEq, Repr

/-- Decimal digit test. -/
def isDig (c : Char) : Bool := '0' ≤ c && c ≤ '9'

/-- Octal digit test. -/
def isOctDig (c : Char) : Bool := '0' ≤ c && c ≤ '7'

/-- Hex digit test: `0-9`, `a-f`, or `A-F` (case-insensitive). -/
def isHexDig (c : Char) : Bool :=
  isDig c || ('a' ≤ c && c ≤ 'f') || ('A' ≤ c && c ≤ 'F')

/-- Value of a decimal digit character. -/
def digitVal (c : Char) : Nat := c.toNat - 48

/-- Value of a hex digit character (either case). -/
def hexVal (c : Char) : Nat :=
  if isDig c then c.toNat - 48
  else if 'a' ≤ c && c ≤ 'f' then c.toNat - 87
  else c.toNat - 55

/-- Modelled from the spec: continuation of digit scanning with `_`
separators allowed only strictly between digits — never last, never
adjacent (the no-leading-`_` rule is enforced by `digitsVal`). -/
def digitsCore (base : Nat) (isD : Char → Bool) (dval : Char → Nat) :
    Nat → List Char → Option Nat
  | acc, [] => some acc
  | acc, '_' :: c :: r =>
    if isD c then digitsCore base isD dval (acc * base + dval c) r else none
  | _, ['_'] => none
  | acc, c :: r =>
    if isD c then digitsCore base isD dval (acc * base + dval c) r else none

/-- Modelled from the spec: a non-empty digit run in the given base with
legibility `_` separators; the first character must be a digit (so `_` is
never first, and never immediately after a base prefix). -/
def digitsVal (base : Nat) (isD : Char → Bool) (dval : Char → Nat)
    (l : List Char) : Option Nat :=
  match l with
  | c :: r => if isD c then digitsCore base isD dval (dval c) r else none
  | [] => none

/-- Modelled from the spec: the optional leading sign of a numeric literal;
returns whether the value is negated and the remaining characters. -/
def stripSign : List Char → Bool × List Char
  | '+' :: r => (false, r)
  | '-' :: r => (true, r)
  | r => (false, r)

/-- Applies the recorded sign to a magnitude. -/
def applySign (neg : Bool) (n : Nat) : Int := if neg then -(n : Int) else (n : Int)

/-- Modelled from the spec: integer coercion of the sign-stripped remainder:
`0x`/`0X` hex and `0o`/`0O` octal forms, else decimal digits, with the
octal-trap guard — a remainder that starts with `0`, is not exactly `0`,
and has no base prefix is a type error. -/
def decodeIntCore (neg : Bool) (ds : List Char) : Except CoerceErr Int :=
  match ds with
  | '0' :: c :: tl =>
    if c == 'x' || c == 'X' then
      match digitsVal 16 isHexDig hexVal tl with
      | some n => .ok (applySign neg n)
      | none => .error .typeCoercion
    else if c == 'o' || c == 'O' then
      match digitsVal 8 isOctDig digitVal tl with
      | some n => .ok (applySign neg n)
      | none => .error .typeCoercion
    else .error .typeCoercion
  | ds =>
    match digitsVal 10 isDig digitVal ds with
    | some n => .ok (applySign neg n)
    | none => .error .typeCoercion

/-- Modelled from the spec: decoding a leaf string into an integer target —
optional sign (before any base prefix), then the base-resolved digit run
with the octal-trap guard; the implementing Go code is not under `src/`. -/
def decodeInt (s : String) : Except CoerceErr Int :=
  let sr := stripSign s.data
  decodeIntCore sr.1 sr.2

/-- Modelled from the spec: decoding a leaf string into a string target is
the identity and always succeeds. -/
def decodeStr (s : String) : Except CoerceErr String := .ok s

/-- Modelled from the spec: a leaf string as seen by the decoder — the
resolved characters plus whether the source token was quoted (the quoted
form is what distinguishes the string `"nil"` from the literal `nil`). -/
structure Leaf where
  raw : String
  quoted : Bool
  deriving DecidableEq, Repr

/-- String decoding of a leaf: identity on the resolved characters. -/
def decodeStrLeaf (l : Leaf) : Except CoerceErr String := .ok l.raw

/-- Integer decoding of a leaf. -/
def decodeIntLeaf (l : Leaf) : Except CoerceErr Int := decodeInt l.raw

/-- Modelled from the spec: decoding into an optional-of-T target — the
unquoted literal `nil` is empty/absent, anything else (including the
quoted string `"nil"`) decodes as T; the implementing Go code is not
under `src/`. -/
def decodeOpt {α : Type} (dT : Leaf → Except CoerceErr α) (l : Leaf) :
    Except CoerceErr (Option α) :=
  if !l.quoted && l.raw == "nil" then .ok none else (dT l).map some

/-- Modelled from the spec: the positioned scan error produced by a
malformed byte-escape. -/
inductive UErr where
  | badEscape (pos : Nat)
  deriving DecidableEq, Repr

/-- Modelled from the spec: the string unescaper — every occurrence of
`<|0xNN|>` (NN exactly two hex digits, case-insensitive) becomes the single
byte `0xNN`; any other occurrence of the literal `<|0x` is a scan error at
that position; all other characters pass through unchanged. The
implementing Go code is not under `src/`. -/
def unescape (l : List Char) (pos : Nat) : Except UErr (List Char) :=
  match l with
  | '<' :: '|' :: '0' :: 'x' :: h1 :: h2 :: c3 :: c4 :: more =>
    if isHexDig h1 && isHexDig h2 && c3 == '|' && c4 == '>' then
      (unescape more (pos + 8)).map
        (fun r => Char.ofNat (16 * hexVal h1 + hexVal h2) :: r)
    else .error (.badEscape pos)
  | '<' :: '|' :: '0' :: 'x' :: _ => .error (.badEscape pos)
  | c :: rest => (unescape rest (pos + 1)).map (fun r => c :: r)
  | [] => .ok []

/-- Whether the characters after a literal `<|0x` form a well-formed
byte-escape tail: two hex digits followed by `|>`. -/
def goodEscTail : List Char → Bool
  | h1 :: h2 :: c3 :: c4 :: _ => isHexDig h1 && isHexDig h2 && c3 == '|' && c4 == '>'
  | _ => false

/-- Whether `pat` occurs at the start of `l`. -/
def startsWith : List Char → List Char → Bool
  | [], _ => true
  | _ :: _, [] => false
  | p :: ps, c :: cs => p == c && startsWith ps cs

/-- Whether `pat` occurs as a contiguous subsequence of `l`. -/
def containsSeq (pat : List Char) : List Char → Bool
  | [] => startsWith pat []
  | c :: cs => startsWith pat (c :: cs) || containsSeq pat cs

theorem unescape_escape (h1 h2 : Char) (rest : List Char) (pos : Nat)
    (hh1 : isHexDig h1 = true) (hh2 : isHexDig h2 = true) :
    unescape ('<' :: '|' :: '0' :: 'x' :: h1 :: h2 :: '|' :: '>' :: rest) pos =
      (unescape rest (pos + 8)).map
        (fun r => Char.ofNat (16 * hexVal h1 + hexVal h2) :: r) := by
  conv_lhs => rw [unescape]
  simp [hh1, hh2]

theorem unescape_bad (rest : List Char) (pos : Nat)
    (h : goodEscTail rest = false) :
    unescape ('<' :: '|' :: '0' :: 'x' :: rest) pos = .error (.badEscape pos) := by
  rcases rest with _ | ⟨h1, _ | ⟨h2, _ | ⟨c3, _ | ⟨c4, more⟩⟩⟩⟩
  · rfl
  · rfl
  · rfl
  · rfl
  · simp only [goodEscTail] at h
    conv_lhs => rw [unescape]
    simp [h]

theorem unescape_id (l : List Char) (pos : Nat)
    (h : containsSeq ['<', '|', '0', 'x'] l = false) :
    unescape l pos = .ok l := by
  induction l, pos using unescape.induct with
  | case1 pos h1 h2 c3 c4 more hcond ih =>
    simp [containsSeq, startsWith] at h
  | case2 pos h1 h2 c3 c4 more hcond =>
    simp [containsSeq, startsWith] at h
  | case3 pos rest hshape =>
    simp [containsSeq, startsWith] at h
  | case4 pos c rest hsh1 hsh2 ih =>
    have hrest : containsSeq ['<', '|', '0', 'x'] rest = false := by
      simp only [containsSeq, Bool.or_eq_false_iff] at h
      exact h.2
    rw [unescape.eq_3 pos c rest hsh1 hsh2, ih hrest]
    rfl
  | case5 pos => rfl

theorem stripSign_zero (c : Char) (tl : List Char) :
    stripSign ('0' :: c :: tl) = (false, '0' :: c :: tl) := rfl

theorem decodeIntCore_trap (neg : Bool) (c : Char) (tl : List Char)
    (hx : c ≠ 'x') (hX : c ≠ 'X') (ho : c ≠ 'o') (hO : c ≠ 'O') :
    decodeIntCore neg ('0' :: c :: tl) = .error .typeCoercion := by
  have e1 : (c == 'x' || c == 'X') = false := by
    simp [hx, hX]
  have e2 : (c == 'o' || c == 'O') = false := by
    simp [ho, hO]
  simp [decodeIntCore, e1, e2]

/-- XON whitespace: only space and horizontal tab. -/
def isWS (c : Char) : Bool := c == ' ' || c == '\t'

/-- Modelled from the spec: the leading-whitespace width of a line, with
each tab counted as 4 columns. -/
def indentWidth : List Char → Nat
  | [] => 0
  | c :: r =>
    if c == ' ' then 1 + indentWidth r
    else if c == '\t' then 4 + indentWidth r
    else 0

/-- A line is empty (blank) when it holds only whitespace. -/
def isBlankLine (l : List Char) : Bool := l.all isWS

/-- The content of a line after its leading whitespace. -/
def afterIndent (l : List Char) : List Char := l.dropWhile isWS

/-- A run of `n` spaces. -/
def spacesN : Nat → List Char
  | 0 => []
  | n + 1 => ' ' :: spacesN n

/-- Modelled from the spec: stripping the base indentation (measured in
columns, tab = 4) from a line: the line keeps its content and retains
`width − base` columns of indentation. -/
def stripIndent (base : Nat) (l : List Char) : List Char :=
  spacesN (indentWidth l - base) ++ afterIndent l

/-- The first non-empty line, if any. -/
def firstNonBlank : List (List Char) → Option (List Char)
  | [] => none
  | l :: r => if isBlankLine l then firstNonBlank r else some l

/-- Modelled from the spec: the base indentation of a multiline string —
the leading-whitespace width of the first non-empty line. -/
def mlBase (lines : List (List Char)) : Nat :=
  match firstNonBlank lines with
  | some l => indentWidth l
  | none => 0

/-- Modelled from the spec: the error for a non-empty multiline line with
content within the base indentation region. -/
inductive MLErr where
  | belowBaseline
  deriving DecidableEq, Repr

/-- Modelled from the spec: multiline indentation processing — error if any
non-empty line has indentation below the base, else strip the base
indentation from every non-empty line and leave empty lines empty. The
implementing Go code is not under `src/`. -/
def mlProcess (lines : List (List Char)) : Except MLErr (List (List Char)) :=
  if lines.any (fun l => !isBlankLine l && decide (indentWidth l < mlBase lines)) then
    .error .belowBaseline
  else
    .ok (lines.map (fun l => if isBlankLine l then [] else stripIndent (mlBase lines) l))

/-- Splits a character sequence into its lines at `\n`. -/
def splitLines : List Char → List (List Char)
  | [] => [[]]
  | '\n' :: r => [] :: splitLines r
  | c :: r =>
    match splitLines r with
    | l :: ls => (c :: l) :: ls
    | [] => [[c]]

/-- Joins lines back with `\n`. -/
def joinLines : List (List Char) → List Char
  | [] => []
  | [l] => l
  | l :: ls => l ++ '\n' :: joinLines ls

/-- Modelled from the spec: strip the whitespace and newline that follow
the opening backtick run (one edge of the token's raw content). -/
def dropOpenEdge (l : List Char) : List Char :=
  match l.dropWhile isWS with
  | '\n' :: rest => rest
  | _ => l

/-- Strip the newline and whitespace that precede the closing backtick run. -/
def dropCloseEdge (l : List Char) : List Char := (dropOpenEdge l.reverse).reverse

/-- Modelled from the spec: decoding the raw content of a multiline string
token — strip the opening/closing edges, split into lines, process
indentation, and rejoin. -/
def mlDecode (content : List Char) : Except MLErr (List Char) :=
  (mlProcess (splitLines (dropCloseEdge (dropOpenEdge content)))).map joinLines

theorem mlProcess_error_iff (lines : List (List Char)) :
    mlProcess lines = .error .belowBaseline ↔
      ∃ l ∈ lines, isBlankLine l = false ∧ indentWidth l < mlBase lines := by
  by_cases hany :
      lines.any (fun l => !isBlankLine l && decide (indentWidth l < mlBase lines)) = true
  · rw [mlProcess, if_pos hany]
    simp only [List.any_eq_true, Bool.and_eq_true, Bool.not_eq_true',
      decide_eq_true_eq] at hany
    simpa using hany
  · rw [mlProcess, if_neg hany]
    simp only [List.any_eq_true, Bool.and_eq_true, Bool.not_eq_true',
      decide_eq_true_eq, not_exists, not_and] at hany
    constructor
    · intro h
      exact absurd h (by simp)
    · rintro ⟨l, hl, hnb, hlt⟩
      exact absurd hlt (by simpa using hany l hl hnb)

theorem indentWidth_spacesN (k : Nat) (r : List Char) :
    indentWidth (spacesN k ++ r) = k + indentWidth r := by
  induction k with
  | zero => simp [spacesN]
  | succ n ih =>
    simp [spacesN, indentWidth, ih]
    omega

theorem afterIndent_shape (l : List Char) :
    afterIndent l = [] ∨ ∃ c r, afterIndent l = c :: r ∧ isWS c = false := by
  induction l with
  | nil => exact Or.inl rfl
  | cons c r ih =>
    by_cases hc : isWS c = true
    · simpa [afterIndent, List.dropWhile, hc] using ih
    · exact Or.inr ⟨c, r, by simp [afterIndent, List.dropWhile,
        Bool.eq_false_iff.2 hc], Bool.eq_false_iff.2 hc⟩

theorem indentWidth_afterIndent (l : List Char) :
    indentWidth (afterIndent l) = 0 := by
  rcases afterIndent_shape l with h | ⟨c, r, h, hc⟩
  · simp [h, indentWidth]
  · have h1 : (c == ' ') = false := by
      cases hb : c == ' '
      · rfl
      · rw [isWS, hb] at hc
        simp at hc
    have h2 : (c == '\t') = false := by
      cases hb : c == '\t'
      · rfl
      · rw [isWS, hb] at hc
        simp at hc
    simp [h, indentWidth, h1, h2]

theorem dropWhile_afterIndent (l : List Char) :
    (afterIndent l).dropWhile isWS = afterIndent l := by
  rcases afterIndent_shape l with h | ⟨c, r, h, hc⟩
  · simp [h]
  · rw [h, List.dropWhile_cons_of_neg (by simp [hc])]

theorem stripIndent_exact (l : List Char) (base : Nat)
    (_hnb : isBlankLine l = false) (_hle : base ≤ indentWidth l) :
    indentWidth (stripIndent base l) = indentWidth l - base ∧
    afterIndent (stripIndent base l) = afterIndent l := by
  constructor
  · rw [stripIndent, indentWidth_spacesN, indentWidth_afterIndent]
    omega
  · rw [stripIndent, afterIndent]
    induction (indentWidth l - base) with
    | zero => simpa [spacesN] using dropWhile_afterIndent l
    | succ n ih => simpa [spacesN, List.dropWhile, isWS] using ih

mutual

/-- Modelled from the spec: a node of a parsed Document — a key/value
`pair` or a named `block` with an optional `[vN]` version marker and
children, each carrying a position (line number) for error reporting.
List values and multiline parsing are settled by their own models above,
so a pair's value is represented by its resolved string. -/
inductive XNode where
  | pair (key : String) (val : String) (pos : Nat)
  | block (name : String) (version : Option Nat) (children : XForest) (pos : Nat)

/-- An ordered sequence of nodes (one block's direct children, or the
implicit top-level block). -/
inductive XForest where
  | nil
  | cons (head : XNode) (tail : XForest)

end

@[induction_eliminator]
theorem XForest.weakInduct {motive : XForest → Prop} (nil : motive .nil)
    (cons : ∀ (head : XNode) (tail : XForest), motive tail → motive (.cons head tail))
    (f : XForest) : motive f :=
  @XForest.rec (fun _ => True) motive (fun _ _ _ => trivial)
    (fun _ _ _ _ _ => trivial) nil (fun h t _ ht => cons h t ht) f

/-- Concatenation of node sequences. -/
def XForest.app : XForest → XForest → XForest
  | .nil, g => g
  | .cons n f, g => .cons n (XForest.app f g)

theorem XForest.app_assoc (f g h : XForest) :
    (f.app g).app h = f.app (g.app h) := by
  induction f with
  | nil => rfl
  | cons n t ih => simp [XForest.app, ih]

/-- Modelled from the spec: the splicing step of the versioned-block
merger at requested version `v` — a versioned sub-block with number
`n ≤ v` has its (recursively spliced) children spliced into the parent's
direct children; one with `n > v` is dropped whole; regular blocks are
kept with their children recursively spliced. The implementing Go code is
not under `src/`. -/
def spliceForest (v : Nat) : XForest → XForest
  | .nil => .nil
  | .cons (.pair k s p) rest => .cons (.pair k s p) (spliceForest v rest)
  | .cons (.block nm none cs p) rest =>
    .cons (.block nm none (spliceForest v cs) p) (spliceForest v rest)
  | .cons (.block _ (some n) cs _) rest =>
    if n ≤ v then (spliceForest v cs).app (spliceForest v rest)
    else spliceForest v rest

/-- All version numbers of versioned blocks anywhere in the document, at
any nesting depth. -/
def docVersions : XForest → List Nat
  | .nil => []
  | .cons (.pair _ _ _) rest => docVersions rest
  | .cons (.block _ ver cs _) rest => ver.toList ++ docVersions cs ++ docVersions rest

/-- Whether all numbers in the list are equal (the single-version-per-file
rule holds exactly when this is true of `docVersions`). -/
def allEqual : List Nat → Bool
  | [] => true
  | n :: rest => rest.all (· == n)

/-- The keys of a sequence's direct pair children, in order. -/
def keysOfPairs : XForest → List String
  | .nil => []
  | .cons (.pair k _ _) r => k :: keysOfPairs r
  | .cons (.block _ _ _ _) r => keysOfPairs r

/-- Whether a key list has no duplicates. -/
def dupFreeKeys : List String → Bool
  | [] => true
  | k :: rest => !rest.contains k && dupFreeKeys rest

/-- Whether every block in the tree has duplicate-free direct pair keys. -/
def treeDupFree : XForest → Bool
  | .nil => true
  | .cons (.pair _ _ _) rest => treeDupFree rest
  | .cons (.block _ _ cs _) rest =>
    dupFreeKeys (keysOfPairs cs) && treeDupFree cs && treeDupFree rest

/-- Modelled from the spec: the merger's and strict decoder's error kinds —
`VersionConflictError`, post-splice `DuplicateKeyError`, and the strict
mode `UnknownKeyError`. -/
inductive MErr where
  | versionConflict
  | duplicateKey
  | unknownKey (key : String)
  deriving DecidableEq, Repr

/-- Modelled from the spec: the versioned-block merger — it errors with
`VersionConflictError` when two distinct version numbers appear anywhere
in the document, then splices versioned blocks at the requested version
and re-applies duplicate-key detection to the result. The implementing Go
code is not under `src/`. -/
def merge (doc : XForest) (v : Nat) : Except MErr XForest :=
  if allEqual (docVersions doc) then
    if dupFreeKeys (keysOfPairs (spliceForest v doc)) && treeDupFree (spliceForest v doc) then
      .ok (spliceForest v doc)
    else .error .duplicateKey
  else .error .versionConflict

/-- The value of the first direct pair with the given key, if any. -/
def lookupPair (key : String) : XForest → Option String
  | .nil => none
  | .cons (.pair k s _) r => if k == key then some s else lookupPair key r
  | .cons (.block _ _ _ _) r => lookupPair key r

/-- Modelled from the spec: strict (version-aware) decoding of a merged
sequence against a flat schema of string-field names — any pair key
outside the schema is an `UnknownKeyError`; each schema field present in
the document is populated with its value. Nested-block schemas are outside
the claims settled against this model. -/
def strictDecode (schema : List String) (ns : XForest) :
    Except MErr (List (String × String)) :=
  match (keysOfPairs ns).find? (fun k => !schema.contains k) with
  | some k => .error (.unknownKey k)
  | none => .ok (schema.filterMap (fun f => (lookupPair f ns).map (fun s => (f, s))))

/-- Modelled from the spec: `decodeVersion` — merge at the requested
version, then decode strictly. -/
def decodeVersion (doc : XForest) (schema : List String) (v : Nat) :
    Except MErr (List (String × String)) :=
  (merge doc v).bind (fun m => strictDecode schema m)

/-- The spec's versioned-block example: a block containing `host = a`,
`port = 8080`, and `[v5] { tls mode = strict }`. -/
def exDoc : XForest :=
  .cons (.pair "host" "a" 1) (.cons (.pair "port" "8080" 2)
    (.cons (.block "[v5]" (some 5) (.cons (.pair "tls mode" "strict" 4) .nil) 3) .nil))

theorem spliceForest_app (v : Nat) (f g : XForest) :
    spliceForest v (f.app g) = (spliceForest v f).app (spliceForest v g) := by
  induction f with
  | nil => rfl
  | cons n t ih =>
    cases n with
    | pair k s p => simp [XForest.app, spliceForest, ih]
    | block nm ver cs p =>
      cases ver with
      | none => simp [XForest.app, spliceForest, ih]
      | some n' =>
        by_cases hle : n' ≤ v <;>
          simp [XForest.app, spliceForest, hle, ih, XForest.app_assoc]

theorem spliceForest_versioned (v n : Nat) (pre post cs : XForest)
    (nm : String) (p : Nat) :
    spliceForest v (pre.app (.cons (.block nm (some n) cs p) post)) =
      (spliceForest v pre).app
        (((if n ≤ v then spliceForest v cs else .nil)).app (spliceForest v post)) := by
  rw [spliceForest_app]
  by_cases hle : n ≤ v <;> simp [spliceForest, hle, XForest.app]

theorem merge_ok (doc : XForest) (v : Nat)
    (h1 : allEqual (docVersions doc) = true)
    (h2 : (dupFreeKeys (keysOfPairs (spliceForest v doc)) &&
      treeDupFree (spliceForest v doc)) = true) :
    merge doc v = .ok (spliceForest v doc) := by
  simp [merge, h1, h2]

theorem allEqual_all_eq (l : List Nat) (h : allEqual l = true) :
    ∀ x ∈ l, ∀ y ∈ l, x = y := by
  cases l with
  | nil => simp
  | cons a r =>
    rw [allEqual] at h
    have hall : ∀ x ∈ r, x = a := by
      intro x hx
      simpa using List.all_eq_true.1 h x hx
    intro x hx y hy
    rcases List.mem_cons.1 hx with rfl | hx2
    · rcases List.mem_cons.1 hy with rfl | hy2
      · rfl
      · exact (hall y hy2).symm
    · rcases List.mem_cons.1 hy with rfl | hy2
      · exact hall x hx2
      · exact (hall x hx2).trans (hall y hy2).symm

theorem merge_conflict (doc : XForest) (v n1 n2 : Nat)
    (h1 : n1 ∈ docVersions doc) (h2 : n2 ∈ docVersions doc) (hne : n1 ≠ n2) :
    merge doc v = .error .versionConflict := by
  have hf : allEqual (docVersions doc) = false := by
    cases hb : allEqual (docVersions doc)
    · rfl
    · exact absurd (allEqual_all_eq _ hb n1 h1 n2 h2) hne
  simp [merge, hf]

theorem decodeVersion_conflict (doc : XForest) (schema : List String)
    (v n1 n2 : Nat)
    (h1 : n1 ∈ docVersions doc) (h2 : n2 ∈ docVersions doc) (hne : n1 ≠ n2) :
    decodeVersion doc schema v = .error .versionConflict := by
  rw [decodeVersion, merge_conflict doc v n1 n2 h1 h2 hne]
  rfl

/-- Modelled from the spec: the parser's positioned error kinds — the
`DuplicateKeyError`, structural errors (unnamed block, bad separators,
strings requiring quotes, bare strings), and lexical errors (illegal
control bytes, malformed byte-escapes); positions are line numbers. -/
inductive PErr where
  | duplicateKey (pos : Nat)
  | structural (pos : Nat)
  | lex (pos : Nat)
  deriving DecidableEq, Repr

/-- Trims leading and trailing whitespace (space/tab) from a line span. -/
def trimWS (l : List Char) : List Char :=
  ((l.dropWhile isWS).reverse.dropWhile isWS).reverse

/-- Modelled from the spec: locating the pair separator — the first `=`
immediately preceded by whitespace; returns the characters before it
(ending in that whitespace) and those after it. A key may not contain a
whitespace-preceded `=`, so this is the separator of a pair line. -/
def splitPair : List Char → Option (List Char × List Char)
  | a :: b :: rest =>
    if isWS a && b == '=' then some ([a], rest)
    else
      match splitPair (b :: rest) with
      | some (pre, post) => some (a :: pre, post)
      | none => none
  | _ => none

/-- Modelled from the spec: strips an inline comment — everything from the
first whitespace-preceded `//` to the end of the line. -/
def dropComment : List Char → List Char
  | a :: b :: c :: rest =>
    if isWS a && b == '/' && c == '/' then [a]
    else a :: dropComment (b :: c :: rest)
  | l => l

/-- The XON structural meta characters that may not follow whitespace in an
unquoted string. -/
def isMeta (c : Char) : Bool := c == '=' || c == '{' || c == '}' || c == '[' || c == ']'

/-- Whether the span contains `//`, `=`, `\x7b`, `\x7d`, `[`, or `]`
immediately preceded by whitespace. -/
def hasWsMeta : List Char → Bool
  | a :: b :: rest =>
    (isWS a && isMeta b) || (isWS a && b == '/' && rest.head? == some '/') ||
      hasWsMeta (b :: rest)
  | _ => false

/-- Control bytes other than tab are illegal in raw form. -/
def isCtl (c : Char) : Bool := decide (c.toNat < 32) && c != '\t'

/-- Modelled from the spec: the structural checks on a candidate unquoted
span — it must be non-empty, not start with `[`, `//`, a quote, or a
backtick (the latter two start other string forms, which this line-level
model does not cover), not end with `]` or `,`, contain no raw quote or
control byte, and contain no whitespace-preceded meta sequence. -/
def checkUnquoted (n : Nat) (v : List Char) : Except PErr Unit :=
  if v.isEmpty then .error (.structural n)
  else if v.head? == some '[' || startsWith ['/', '/'] v
      || v.head? == some '"' || v.head? == some '`' then .error (.structural n)
  else if v.getLast? == some ']' || v.getLast? == some ',' then .error (.structural n)
  else if v.any (fun c => c == '"' || isCtl c) then .error (.lex n)
  else if hasWsMeta v then .error (.structural n)
  else .ok ()

/-- Runs the unescaper on a span, reporting a lexical error at the line. -/
def unescapeLine (n : Nat) (v : List Char) : Except PErr (List Char) :=
  match unescape v 0 with
  | .ok r => .ok r
  | .error _ => .error (.lex n)

/-- Modelled from the spec: scanning one line of a block body — blank lines
and comment lines produce nothing; a pair line is split at the
whitespace-preceded `=` (which must also be followed by whitespace), its
key and value spans are trimmed, checked as unquoted strings, and
unescaped; any other line (a bare string) is a structural error. Nested
blocks, lists, quoted and multiline values are outside the claims settled
against this line-level model and are rejected. -/
def scanLine (n : Nat) (l : List Char) : Except PErr (Option (String × String)) :=
  if (trimWS l).isEmpty then .ok none
  else if startsWith ['/', '/'] (trimWS l) then .ok none
  else
    match splitPair l with
    | none => .error (.structural n)
    | some (before, after) =>
      match after with
      | [] => .error (.structural n)
      | a :: _ =>
        if isWS a then
          (checkUnquoted n (trimWS before)).bind (fun _ =>
            (unescapeLine n (trimWS before)).bind (fun k =>
              (checkUnquoted n (trimWS (dropComment after))).bind (fun _ =>
                (unescapeLine n (trimWS (dropComment after))).map (fun w =>
                  some (String.mk k, String.mk w)))))
        else .error (.structural n)

/-- Numbers lines starting from `n`. -/
def numberFrom (n : Nat) : List (List Char) → List (Nat × List Char)
  | [] => []
  | a :: r => (n, a) :: numberFrom (n + 1) r

/-- Scans numbered lines in order, collecting the pair entries and failing
at the first bad line. -/
def scanLines : List (Nat × List Char) → Except PErr (List (String × String × Nat))
  | [] => .ok []
  | (n, l) :: rest =>
    match scanLine n l with
    | .error e => .error e
    | .ok none => scanLines rest
    | .ok (some (k, w)) => (scanLines rest).map (fun es => (k, w, n) :: es)

/-- Modelled from the spec: assembling one block's direct children from its
scanned pair entries, rejecting a key already seen in the same block with
a `DuplicateKeyError` at the second occurrence. -/
def assemble : List (String × String × Nat) → List String → Except PErr XForest
  | [], _ => .ok .nil
  | (k, w, p) :: rest, seen =>
    if seen.contains k then .error (.duplicateKey p)
    else (assemble rest (k :: seen)).map (fun f => .cons (.pair k w p) f)


/-- Modelled from the spec: `\r\n` is normalized to `\n` before any other
processing. -/
def normalizeNl : List Char → List Char
  | '\r' :: '\n' :: r => '\n' :: normalizeNl r
  | c :: r => c :: normalizeNl r
  | [] => []

/-- Modelled from the spec: the parser for a flat document — normalize line
endings, split into lines, scan each line, and assemble the top-level
block's children with duplicate-key checking. The implementing Go code is
not under `src/`. -/
def parseChars (input : List Char) : Except PErr XForest :=
  (scanLines (numberFrom 1 (splitLines (normalizeNl input)))).bind
    (fun es => assemble es [])

/-- `Parse` entry point over a string. -/
def parse (s : String) : Except PErr XForest := parseChars s.data


/-- The claim's conditions on a string that requires no quoting: non-empty,
no leading or trailing whitespace, does not start with `[` or `//`, does
not end with `]` or `,`, and has no whitespace-preceded meta occurrence. -/
def noQuoteNeeded (s : List Char) : Bool :=
  !s.isEmpty &&
  !(match s.head? with | some c => isWS c | none => false) &&
  !(match s.getLast? with | some c => isWS c | none => false) &&
  !(s.head? == some '[') && !(startsWith ['/', '/'] s) &&
  !(s.getLast? == some ']') && !(s.getLast? == some ',') && !hasWsMeta s

/-- `noQuoteNeeded` plus the further conditions the amended claim needs: no
raw quote or control byte (hence no newline or carriage return), not
starting with a backtick, and no byte-escape introducer `<|0x`. -/
def plainScalar (s : List Char) : Bool :=
  noQuoteNeeded s && !s.any (fun c => c == '"' || isCtl c) &&
  !(s.head? == some '`') && !containsSeq ['<', '|', '0', 'x'] s

theorem assemble_dup (pre : List (String × String × Nat)) (k w : String) (p : Nat)
    (rest : List (String × String × Nat)) (seen : List String)
    (hnd : (pre.map (fun e => e.1) ++ seen).Nodup)
    (hk : k ∈ pre.map (fun e => e.1) ∨ k ∈ seen) :
    assemble (pre ++ (k, w, p) :: rest) seen = .error (.duplicateKey p) := by
  induction pre generalizing seen with
  | nil =>
    have hks : k ∈ seen := by
      rcases hk with h | h
      · simp at h
      · exact h
    have hc : seen.contains k = true := List.elem_eq_true_of_mem hks
    rw [List.nil_append]
    unfold assemble
    rw [hc]
    rfl
  | cons e pre2 ih =>
    obtain ⟨k0, w0, p0⟩ := e
    simp only [List.map_cons, List.cons_append, List.nodup_cons] at hnd
    have hk0 : k0 ∉ seen := fun hmem =>
      hnd.1 (List.mem_append.2 (Or.inr hmem))
    have hc0 : seen.contains k0 = false := by
      cases hb : seen.contains k0
      · rfl
      · exact absurd (List.mem_of_elem_eq_true hb) hk0
    have hnd2 : (pre2.map (fun e => e.1) ++ (k0 :: seen)).Nodup := by
      have hperm : (k0 :: (pre2.map (fun e => e.1) ++ seen)).Perm
          (pre2.map (fun e => e.1) ++ (k0 :: seen)) :=
        (List.perm_middle).symm
      exact hperm.nodup (List.nodup_cons.2 hnd)
    have hk2 : k ∈ pre2.map (fun e => e.1) ∨ k ∈ k0 :: seen := by
      rcases hk with h | h
      · rw [List.map_cons] at h
        rcases List.mem_cons.1 h with h1 | h2
        · exact Or.inr (by rw [h1]; exact List.mem_cons_self _ _)
        · exact Or.inl h2
      · exact Or.inr (List.mem_cons_of_mem _ h)
    have hres := ih (k0 :: seen) hnd2 hk2
    simp only [List.cons_append, assemble, hc0, Bool.false_eq_true, if_false,
      List.append_eq, hres]
    rfl

theorem normalizeNl_no_cr (l : List Char) (h : (Char.ofNat 13) ∉ l) :
    normalizeNl l = l := by
  induction l using normalizeNl.induct with
  | case1 r ih => simp at h
  | case2 c r hne ih =>
    simp only [List.mem_cons, not_or] at h
    rw [normalizeNl.eq_2 c r hne, ih h.2]
  | case3 => rfl

theorem splitLines_no_nl (l : List Char) (h : '\n' ∉ l) : splitLines l = [l] := by
  induction l using splitLines.induct with
  | case1 => rfl
  | case2 r ih => simp at h
  | case3 c r hne l0 ls0 heq ih =>
    simp only [List.mem_cons, not_or] at h
    rw [splitLines.eq_3 c r hne, ih h.2]
  | case4 c r hne heq ih =>
    simp only [List.mem_cons, not_or] at h
    rw [ih h.2] at heq
    simp at heq

theorem dropWhile_head_no (l : List Char)
    (h : ∀ c, l.head? = some c → isWS c = false) :
    l.dropWhile isWS = l := by
  cases l with
  | nil => rfl
  | cons c r => exact List.dropWhile_cons_of_neg (by simp [h c rfl])

theorem trimWS_id (l : List Char)
    (hh : ∀ c, l.head? = some c → isWS c = false)
    (hl : ∀ c, l.getLast? = some c → isWS c = false) : trimWS l = l := by
  rw [trimWS, dropWhile_head_no l hh, dropWhile_head_no l.reverse
    (fun c hc => hl c (by rwa [List.head?_reverse] at hc)), List.reverse_reverse]

theorem trimWS_space (s : List Char)
    (hh : ∀ c, s.head? = some c → isWS c = false)
    (hl : ∀ c, s.getLast? = some c → isWS c = false) :
    trimWS (' ' :: s) = s := by
  rw [trimWS, List.dropWhile_cons_of_pos (by simp [isWS]), dropWhile_head_no s hh,
    dropWhile_head_no s.reverse
      (fun c hc => hl c (by rwa [List.head?_reverse] at hc)),
    List.reverse_reverse]

theorem dropComment_id (l : List Char) (h : hasWsMeta l = false) :
    dropComment l = l := by
  induction l using dropComment.induct with
  | case1 a b c rest hcond =>
    exfalso
    simp only [Bool.and_eq_true, beq_iff_eq] at hcond
    obtain ⟨⟨ha, rfl⟩, rfl⟩ := hcond
    rw [hasWsMeta] at h
    simp [ha] at h
  | case2 a b c rest hcond ih =>
    have h3 : hasWsMeta (b :: c :: rest) = false := by
      rw [hasWsMeta] at h
      simp only [Bool.or_eq_false_iff] at h
      exact h.2
    rw [dropComment.eq_1, if_neg hcond, ih h3]
  | case3 l hshort => rw [dropComment.eq_2 l hshort]

theorem dropComment_space (s : List Char)
    (h5 : startsWith ['/', '/'] s = false) (h7 : hasWsMeta s = false) :
    dropComment (' ' :: s) = ' ' :: s := by
  cases s with
  | nil => rfl
  | cons s0 s1r =>
    cases s1r with
    | nil => rfl
    | cons s1 r =>
      have hcond : (isWS ' ' && s0 == '/' && s1 == '/') = false := by
        cases hs0 : s0 == '/' <;> cases hs1 : s1 == '/' <;>
          simp_all [startsWith, isWS]
      rw [dropComment.eq_1, if_neg (by simp [hcond]), dropComment_id _ h7]

theorem plainScalar_parts (s : List Char) (hps : plainScalar s = true) :
    s.isEmpty = false ∧
    (match s.head? with | some c => isWS c | none => false) = false ∧
    (match s.getLast? with | some c => isWS c | none => false) = false ∧
    (s.head? == some '[') = false ∧ startsWith ['/', '/'] s = false ∧
    (s.getLast? == some ']') = false ∧ (s.getLast? == some ',') = false ∧
    hasWsMeta s = false ∧
    s.any (fun c => c == '"' || isCtl c) = false ∧
    (s.head? == some '`') = false ∧
    containsSeq ['<', '|', '0', 'x'] s = false := by
  unfold plainScalar noQuoteNeeded at hps
  simp only [Bool.and_eq_true, Bool.not_eq_true'] at hps
  obtain ⟨⟨⟨⟨⟨⟨⟨⟨⟨⟨hne, hhw⟩, hlw⟩, hlb⟩, hss⟩, hrb⟩, hcm⟩, hwm⟩, hany⟩, hbt⟩, hcseq⟩ := hps
  exact ⟨hne, hhw, hlw, hlb, hss, hrb, hcm, hwm, hany, hbt, hcseq⟩

theorem head_no_quote (s : List Char)
    (hany : s.any (fun c => c == '"' || isCtl c) = false) :
    (s.head? == some '"') = false := by
  cases hh : s.head? with
  | none => rfl
  | some c =>
    have hmem : c ∈ s := List.mem_of_mem_head? hh
    have hc : (c == '"' || isCtl c) = false := by
      cases hb : (c == '"' || isCtl c)
      · rfl
      · rw [List.any_eq_false] at hany
        exact absurd hb (by simpa using hany c hmem)
    have hq : (c == '"') = false := by
      cases hcq : c == '"'
      · rfl
      · rw [hcq] at hc
        simp at hc
    simp [hq]

theorem checkUnquoted_ok (n : Nat) (s : List Char) (hps : plainScalar s = true) :
    checkUnquoted n s = .ok () := by
  obtain ⟨hne, hhw, hlw, hlb, hss, hrb, hcm, hwm, hany, hbt, hcseq⟩ :=
    plainScalar_parts s hps
  have hq := head_no_quote s hany
  rw [checkUnquoted]
  rw [if_neg (by simp [hne]), if_neg (by simp [hlb, hss, hq, hbt]),
    if_neg (by simp [hrb, hcm]), if_neg (by simp [hany]), if_neg (by simp [hwm])]

theorem scanLine_key (n : Nat) (s : List Char) (hps : plainScalar s = true) :
    scanLine n ('k' :: 'e' :: 'y' :: ' ' :: '=' :: ' ' :: s) =
      .ok (some ("key", String.mk s)) := by
  obtain ⟨hne, hhw, hlw, hlb, hss, hrb, hcm, hwm, hany, hbt, hcseq⟩ :=
    plainScalar_parts s hps
  have hsne : s ≠ [] := by
    cases s
    · simp at hne
    · simp
  have hh : ∀ c, s.head? = some c → isWS c = false := by
    intro c hc
    rw [hc] at hhw
    exact hhw
  have hl : ∀ c, s.getLast? = some c → isWS c = false := by
    intro c hc
    rw [hc] at hlw
    exact hlw
  have hlast : ('k' :: 'e' :: 'y' :: ' ' :: '=' :: ' ' :: s).getLast? = s.getLast? :=
    List.getLast?_append_of_ne_nil ['k', 'e', 'y', ' ', '=', ' '] hsne
  have htr : trimWS ('k' :: 'e' :: 'y' :: ' ' :: '=' :: ' ' :: s) =
      'k' :: 'e' :: 'y' :: ' ' :: '=' :: ' ' :: s := by
    refine trimWS_id _ ?_ ?_
    · intro c hc
      simp only [List.head?_cons, Option.some.injEq] at hc
      subst hc
      rfl
    · intro c hc
      rw [hlast] at hc
      exact hl c hc
  have hsp : splitPair ('k' :: 'e' :: 'y' :: ' ' :: '=' :: ' ' :: s) =
      some (['k', 'e', 'y', ' '], ' ' :: s) := by
    simp [splitPair, isWS]
  have hdc : dropComment (' ' :: s) = ' ' :: s := dropComment_space s hss hwm
  have htv : trimWS (' ' :: s) = s := trimWS_space s hh hl
  have hcu : checkUnquoted n s = .ok () := checkUnquoted_ok n s hps
  have hue : unescapeLine n s = .ok s := by
    rw [unescapeLine, unescape_id s 0 hcseq]
  rw [scanLine, htr, hsp]
  rw [if_neg (by simp), if_neg (by simp [startsWith])]
  show (if isWS ' ' = true then
      (checkUnquoted n (trimWS ['k', 'e', 'y', ' '])).bind (fun _ =>
        (unescapeLine n (trimWS ['k', 'e', 'y', ' '])).bind (fun k =>
          (checkUnquoted n (trimWS (dropComment (' ' :: s)))).bind (fun _ =>
            (unescapeLine n (trimWS (dropComment (' ' :: s)))).map (fun w =>
              some (String.mk k, String.mk w)))))
    else .error (.structural n)) = .ok (some ("key", String.mk s))
  rw [if_pos (show isWS ' ' = true from rfl), hdc, htv]
  have hck : checkUnquoted n (trimWS ['k', 'e', 'y', ' ']) = .ok () := rfl
  have huk : unescapeLine n (trimWS ['k', 'e', 'y', ' ']) = .ok ['k', 'e', 'y'] := rfl
  rw [hck, huk, hcu, hue]
  rfl

theorem c8_round_trip_aux (s : List Char) (str : String)
    (hps : plainScalar s = true)
    (hstr : str.data = 'k' :: 'e' :: 'y' :: ' ' :: '=' :: ' ' :: s) :
    parse str = .ok (.cons (.pair "key" (String.mk s) 1) .nil) := by
  obtain ⟨hne, hhw, hlw, hlb, hss, hrb, hcm, hwm, hany, hbt, hcseq⟩ :=
    plainScalar_parts s hps
  have hart : ∀ c ∈ s, isCtl c = false := by
    rw [List.any_eq_false] at hany
    intro c hc
    have hb := hany c hc
    cases hi : isCtl c
    · rfl
    · exact absurd (by simp [hi]) hb
  have hcr : Char.ofNat 13 ∉ ('k' :: 'e' :: 'y' :: ' ' :: '=' :: ' ' :: s) := by
    intro hmem
    simp only [List.mem_cons] at hmem
    rcases hmem with h | h | h | h | h | h | h
    · exact absurd h (by decide)
    · exact absurd h (by decide)
    · exact absurd h (by decide)
    · exact absurd h (by decide)
    · exact absurd h (by decide)
    · exact absurd h (by decide)
    · have := hart _ h
      rw [show isCtl (Char.ofNat 13) = true from rfl] at this
      simp at this
  have hlf : '\n' ∉ ('k' :: 'e' :: 'y' :: ' ' :: '=' :: ' ' :: s) := by
    intro hmem
    simp only [List.mem_cons] at hmem
    rcases hmem with h | h | h | h | h | h | h
    · exact absurd h (by decide)
    · exact absurd h (by decide)
    · exact absurd h (by decide)
    · exact absurd h (by decide)
    · exact absurd h (by decide)
    · exact absurd h (by decide)
    · have := hart _ h
      rw [show isCtl '\n' = true from rfl] at this
      simp at this
  have hsl : scanLines [(1, 'k' :: 'e' :: 'y' :: ' ' :: '=' :: ' ' :: s)] =
      .ok [("key", String.mk s, 1)] := by
    simp only [scanLines]
    rw [scanLine_key 1 s hps]
    rfl
  rw [parse, hstr, parseChars, normalizeNl_no_cr _ hcr, splitLines_no_nl _ hlf]
  show (scanLines [(1, 'k' :: 'e' :: 'y' :: ' ' :: '=' :: ' ' :: s)]).bind
      (fun es => assemble es []) = _
  rw [hsl]
  rfl

end Xon

/-- Claim C2: version-aware merging splices the children of each versioned
sub-block with number `≤` the requested version into its parent's direct
children and drops those with a larger number whole; on the spec's
example, `decodeVersion` at 4 populates only `host` and `port`, while at 5
it additionally populates `tls mode`. -/
theorem Xon.c2_version_merge :
    (∀ (v n : Nat) (pre post cs : XForest) (nm : String) (p : Nat),
      spliceForest v (pre.app (.cons (.block nm (some n) cs p) post)) =
        (spliceForest v pre).app
          (((if n ≤ v then spliceForest v cs else .nil)).app (spliceForest v post))) ∧
    (∀ (doc : XForest) (v : Nat),
      allEqual (docVersions doc) = true →
      (dupFreeKeys (keysOfPairs (spliceForest v doc)) &&
        treeDupFree (spliceForest v doc)) = true →
      merge doc v = .ok (spliceForest v doc)) ∧
    decodeVersion exDoc ["host", "port", "tls mode"] 4 =
      .ok [("host", "a"), ("port", "8080")] ∧
    decodeVersion exDoc ["host", "port", "tls mode"] 5 =
      .ok [("host", "a"), ("port", "8080"), ("tls mode", "strict")] :=
  ⟨spliceForest_versioned, merge_ok, rfl, rfl⟩

/-- Witness for C2: merging the spec's example document at version 4
succeeds and returns exactly the spliced tree. -/
theorem Xon.c2_version_merge_witness :
    merge exDoc 4 = .ok (spliceForest 4 exDoc) :=
  Xon.c2_version_merge.2.1 exDoc 4 rfl rfl

/-- Claim C3: a document containing versioned blocks with two different
version numbers anywhere (at any nesting depth) makes `merge` and
`decodeVersion` fail with a `VersionConflictError`, regardless of the
requested version and schema. -/
theorem Xon.c3_version_conflict :
    ∀ (doc : XForest) (v n1 n2 : Nat),
      n1 ∈ docVersions doc → n2 ∈ docVersions doc → n1 ≠ n2 →
      merge doc v = .error .versionConflict ∧
      ∀ schema : List String,
        decodeVersion doc schema v = .error .versionConflict :=
  fun doc v n1 n2 h1 h2 hne =>
    ⟨merge_conflict doc v n1 n2 h1 h2 hne,
     fun schema => decodeVersion_conflict doc schema v n1 n2 h1 h2 hne⟩

/-- Witness for C3: a document with a top-level `[v5]` block and a `[v6]`
block nested inside a regular block conflicts at requested version 9. -/
theorem Xon.c3_version_conflict_witness :
    merge
      (.cons (.block "[v5]" (some 5) .nil 1)
        (.cons (.block "outer" none (.cons (.block "[v6]" (some 6) .nil 3) .nil) 2)
          .nil)) 9 = .error .versionConflict ∧
    decodeVersion
      (.cons (.block "[v5]" (some 5) .nil 1)
        (.cons (.block "outer" none (.cons (.block "[v6]" (some 6) .nil 3) .nil) 2)
          .nil)) ["host"] 9 = .error .versionConflict :=
  ⟨(Xon.c3_version_conflict _ 9 5 6 (by decide) (by decide) (by decide)).1,
   (Xon.c3_version_conflict _ 9 5 6 (by decide) (by decide) (by decide)).2 ["host"]⟩

/-- Claim C1: when the same key occurs as the key of two Pairs among one
block's direct children (the implicit top-level block included, before any
version merging), the parser returns a `DuplicateKeyError` positioned at
the second occurrence and no Document; in particular parsing
`"port = 8080\nport = 9090\n"` yields a `DuplicateKeyError` (at line 2). -/
theorem Xon.c1_duplicate_key :
    (∀ (pre : List (String × String × Nat)) (k w : String) (p : Nat)
       (rest : List (String × String × Nat)),
      (pre.map (fun e => e.1)).Nodup → k ∈ pre.map (fun e => e.1) →
      assemble (pre ++ (k, w, p) :: rest) [] = .error (.duplicateKey p)) ∧
    parse "port = 8080\nport = 9090\n" = .error (.duplicateKey 2) := by
  refine ⟨fun pre k w p rest hnd hk => ?_, rfl⟩
  exact assemble_dup pre k w p rest [] (by simpa using hnd) (Or.inl hk)

/-- Witness for C1: assembling a block whose entries repeat the key `a`
errors at the second occurrence's line. -/
theorem Xon.c1_duplicate_key_witness :
    assemble ([("a", "1", 1)] ++ ("a", "2", 2) :: []) [] =
      .error (.duplicateKey 2) :=
  Xon.c1_duplicate_key.1 [("a", "1", 1)] "a" "2" 2 [] (by simp) (by simp)

/-- Claim C8 (amended): for every string `s` that requires no quoting —
non-empty, no leading/trailing whitespace, not starting with `[` or `//`,
not ending with `]` or `,`, no whitespace-preceded `//`/`=`/brace/bracket
— and that additionally stays within the unquoted-scalar lexical form (no
raw double-quote, no control character such as a newline or carriage
return, not starting with a backtick, and no byte-escape introducer
`<|0x`), parsing `"key = " ++ s` yields exactly the single node
`Pair{key, Str(s)}` with `s` unchanged. -/
theorem Xon.c8_unquoted_round_trip :
    ∀ (s : List Char) (str : String),
      plainScalar s = true →
      str.data = 'k' :: 'e' :: 'y' :: ' ' :: '=' :: ' ' :: s →
      parse str = .ok (.cons (.pair "key" (String.mk s) 1) .nil) :=
  fun s str hps hstr => c8_round_trip_aux s str hps hstr

/-- Witness for C8: the amended statement at the concrete scalar `v`. -/
theorem Xon.c8_unquoted_round_trip_witness :
    parse "key = v" = .ok (.cons (.pair "key" (String.mk ['v']) 1) .nil) :=
  Xon.c8_unquoted_round_trip ['v'] "key = v" (by decide) rfl

/-- Counterexample to C8 as stated: `s = "a\nb"` satisfies every condition
the claim lists — non-empty, no leading/trailing whitespace (only space
and tab are whitespace), not starting with `[` or `//`, not ending with
`]` or `,`, no whitespace-preceded meta occurrence — yet parsing
`"key = a\nb"` does not yield `Pair{key, Str("a\nb")}`: the newline splits
the input and the bare string `b` on the second line is a structural
error. -/
theorem Xon.c8_counterexample :
    noQuoteNeeded ('a' :: '\n' :: ['b']) = true ∧
    parse "key = a\nb" = .error (.structural 2) :=
  ⟨by decide, rfl⟩

/-- Claim C7: the scanner takes the base indentation of a multiline string
from its first non-empty line (tab = 4 columns), fails when a non-empty
line falls below that base, and otherwise strips exactly the base
indentation from each non-empty line, leaving empty lines empty; the
spec's two-line example decodes to the expected string. -/
theorem Xon.c7_multiline_strip :
    (∀ lines : List (List Char),
      mlProcess lines = .error .belowBaseline ↔
        ∃ l ∈ lines, isBlankLine l = false ∧ indentWidth l < mlBase lines) ∧
    (∀ (l : List Char) (base : Nat),
      isBlankLine l = false → base ≤ indentWidth l →
      indentWidth (stripIndent base l) = indentWidth l - base ∧
      afterIndent (stripIndent base l) = afterIndent l) ∧
    mlDecode ("\n    first line sets indentation baseline\n      subsequent lines must meet or exceed it\n").data =
      .ok ("first line sets indentation baseline\n  subsequent lines must meet or exceed it").data :=
  ⟨mlProcess_error_iff, stripIndent_exact, rfl⟩

/-- Witness for C7: a below-baseline line errors, and stripping 2 columns
from a 3-column line leaves 1. -/
theorem Xon.c7_multiline_strip_witness :
    mlProcess [[' ', ' ', 'a'], [' ', 'b']] = .error .belowBaseline ∧
    indentWidth (stripIndent 2 [' ', ' ', ' ', 'x']) =
      indentWidth [' ', ' ', ' ', 'x'] - 2 :=
  ⟨(Xon.c7_multiline_strip.1 _).mpr ⟨[' ', 'b'], by decide, by decide, by decide⟩,
   (Xon.c7_multiline_strip.2.1 [' ', ' ', ' ', 'x'] 2 (by decide) (by decide)).1⟩

/-- Claim C4 (amended): for every leaf string whose remainder after the
optional sign begins with the digit `0`, is not exactly `0`, and carries no
`0x`/`0X`/`0o`/`0O` base prefix, integer decoding fails with a
`TypeCoercionError`, while string decoding returns the leaf unchanged; in
particular `"0123"` fails as int and decodes as the string `"0123"`. -/
theorem Xon.c4_octal_trap :
    (∀ (s : String) (sgn ds : List Char) (c : Char) (tl : List Char),
      s.data = sgn ++ ds → (sgn = [] ∨ sgn = ['+'] ∨ sgn = ['-']) →
      ds = '0' :: c :: tl →
      c ≠ 'x' → c ≠ 'X' → c ≠ 'o' → c ≠ 'O' →
      decodeInt s = .error .typeCoercion) ∧
    (∀ s : String, decodeStr s = .ok s) ∧
    decodeInt "0123" = .error .typeCoercion ∧ decodeStr "0123" = .ok "0123" := by
  refine ⟨?_, fun s => rfl, rfl, rfl⟩
  intro s sgn ds c tl hs hsgn hds hx hX ho hO
  subst hds
  unfold decodeInt
  rw [hs]
  rcases hsgn with h | h | h <;> subst h
  · simpa [stripSign_zero] using decodeIntCore_trap false c tl hx hX ho hO
  · simpa [stripSign] using decodeIntCore_trap false c tl hx hX ho hO
  · simpa [stripSign] using decodeIntCore_trap true c tl hx hX ho hO

/-- Witness for C4: the amended statement at the concrete input `"09"`. -/
theorem Xon.c4_octal_trap_witness :
    decodeInt "09" = .error .typeCoercion ∧ decodeStr "09" = .ok "09" :=
  ⟨Xon.c4_octal_trap.1 "09" [] ['0', '9'] '9' [] rfl (Or.inl rfl) rfl
    (by decide) (by decide) (by decide) (by decide),
   Xon.c4_octal_trap.2.1 "09"⟩

/-- Counterexample to C4 as stated: `"+0"` begins with the digit `0` after
an optional sign, is not exactly `"0"`, and has no base prefix, yet it
decodes as the integer `0` rather than failing (the spec's octal-trap guard
applies to the digit part, and `+0` denotes exactly zero). -/
theorem Xon.c4_counterexample :
    ("+0" : String) ≠ "0" ∧ ("+0" : String).data = ['+', '0'] ∧
      decodeInt "+0" = .ok 0 :=
  ⟨by decide, rfl, rfl⟩

/-- Claim C6: `unescape` maps every occurrence of `<|0xNN|>` (NN exactly
two hex digits, case-insensitive) to the single byte `0xNN` — unescaping
`"<|0x0D|><|0x0A|>"` yields CR LF — and fails with a positioned scan error
whenever the literal `<|0x` occurs without being followed by exactly two
hex digits and `|>`. -/
theorem Xon.c6_byte_escape :
    (∀ (h1 h2 : Char) (rest : List Char) (pos : Nat),
      isHexDig h1 = true → isHexDig h2 = true →
      unescape ('<' :: '|' :: '0' :: 'x' :: h1 :: h2 :: '|' :: '>' :: rest) pos =
        (unescape rest (pos + 8)).map
          (fun r => Char.ofNat (16 * hexVal h1 + hexVal h2) :: r)) ∧
    (∀ (rest : List Char) (pos : Nat), goodEscTail rest = false →
      unescape ('<' :: '|' :: '0' :: 'x' :: rest) pos =
        .error (.badEscape pos)) ∧
    (∀ (l : List Char) (pos : Nat), containsSeq ['<', '|', '0', 'x'] l = false →
      unescape l pos = .ok l) ∧
    unescape "<|0x0D|><|0x0A|>".data 0 = .ok ['\r', '\n'] :=
  ⟨fun h1 h2 rest pos hh1 hh2 => unescape_escape h1 h2 rest pos hh1 hh2,
   fun rest pos h => unescape_bad rest pos h,
   fun l pos h => unescape_id l pos h, rfl⟩

/-- Witness for C6: the three conditional parts applied at concrete inputs:
a well-formed `<|0x41|>` escape, a malformed tail `ZZ|>`, and an
escape-free string. -/
theorem Xon.c6_byte_escape_witness :
    unescape ('<' :: '|' :: '0' :: 'x' :: '4' :: '1' :: '|' :: '>' :: ['B']) 0 =
      (unescape ['B'] 8).map (fun r => Char.ofNat (16 * hexVal '4' + hexVal '1') :: r) ∧
    unescape ('<' :: '|' :: '0' :: 'x' :: ['Z', 'Z', '|', '>']) 0 =
      .error (.badEscape 0) ∧
    unescape ['a', 'b'] 0 = .ok ['a', 'b'] :=
  ⟨Xon.c6_byte_escape.1 '4' '1' ['B'] 0 (by decide) (by decide),
   Xon.c6_byte_escape.2.1 ['Z', 'Z', '|', '>'] 0 (by decide),
   Xon.c6_byte_escape.2.2.1 ['a', 'b'] 0 (by decide)⟩

/-- Claim C5: for an optional-of-T target, the unquoted leaf literal `nil`
decodes to the absent value, the quoted leaf `"nil"` into an
optional-string target decodes to a present value equal to the string
`"nil"`, and any other leaf decodes by the coercion rule for T. -/
theorem Xon.c5_optional_nil :
    (∀ (α : Type) (dT : Leaf → Except CoerceErr α),
      decodeOpt dT { raw := "nil", quoted := false } = .ok none) ∧
    decodeOpt decodeStrLeaf { raw := "nil", quoted := true } = .ok (some "nil") ∧
    (∀ (α : Type) (dT : Leaf → Except CoerceErr α) (l : Leaf),
      ¬(l.quoted = false ∧ l.raw = "nil") →
      decodeOpt dT l = (dT l).map some) := by
  refine ⟨fun α dT => rfl, rfl, fun α dT l h => ?_⟩
  have hb : (!l.quoted && l.raw == "nil") = false := by
    rcases Bool.eq_false_or_eq_true l.quoted with hq | hq
    · simp [hq]
    · have hr : l.raw ≠ "nil" := fun hr => h ⟨hq, hr⟩
      simp [hr]
  simp [decodeOpt, hb]

/-- Witness for C5: a leaf other than unquoted `nil` decodes by the rule
for T, instantiated with the integer leaf `42`. -/
theorem Xon.c5_optional_nil_witness :
    decodeOpt decodeIntLeaf { raw := "42", quoted := false } =
      (decodeIntLeaf { raw := "42", quoted := false }).map some :=
  Xon.c5_optional_nil.2.2 Int decodeIntLeaf _ (by simp)

/-- Claim C9: the osexit mock is first-call-wins: immediately after `Set`
(or `Reset`), `Called()` is false and `Status()` is 0; after the first call
with code `c`, `Called()` is true and `Status()` is `c`, and every
subsequent call with any code leaves both unchanged. -/
theorem Osexit.c9_first_call_wins :
    (∀ s : ExitState, Called (SetState s) = false ∧ Status (SetState s) = 0) ∧
    (∀ (s : ExitState) (c : Int) (cs : List Int),
      runExits (c :: cs) (SetState s) = { called := true, status := c }) ∧
    (∀ (s : ExitState) (c : Int), s.called = true → mockExit c s = s) := by
  refine ⟨fun s => ⟨rfl, rfl⟩, fun s c cs => ?_, fun s c h => ?_⟩
  · simp only [runExits, List.foldl_cons]
    have h1 : mockExit c (SetState s) = { called := true, status := c } := rfl
    rw [h1]
    exact runExits_of_called cs _ rfl
  · simp [mockExit, h]

/-- Witness for C9: concrete run `Set; exit 3; exit 7` ends with
`Called = true`, `Status = 3`, and a further call is a no-op. -/
theorem Osexit.c9_first_call_wins_witness :
    runExits [3, 7] (SetState { called := true, status := 9 }) =
      { called := true, status := 3 } ∧
    mockExit 5 { called := true, status := 3 } = { called := true, status := 3 } :=
  ⟨Osexit.c9_first_call_wins.2.1 _ 3 [7],
   Osexit.c9_first_call_wins.2.2 _ 5 rfl⟩

/-- Claim C10: alphafmt's `formatFile` returns `changed = true` exactly when
the formatted output differs from the original bytes; under `-l` a path is
printed iff reformatting would alter the file; under `-w` a file is
rewritten only when its contents would change. -/
theorem Alphafmt.c10_changed_iff_differs :
    ∀ (fmt : List Nat → List Nat) (src : List Nat) (l w : Bool),
      ((formatFile fmt src).1 = true ↔ fmt src ≠ src) ∧
      ((mainFileStep l w fmt src).printPath = true ↔ (l = true ∧ fmt src ≠ src)) ∧
      ((mainFileStep l w fmt src).writeFile = true ↔ (w = true ∧ fmt src ≠ src)) := by
  intro fmt src l w
  have hch : (formatFile fmt src).1 = true ↔ fmt src ≠ src := by
    simp only [formatFile, Bool.not_eq_true', beq_eq_false_iff_ne, ne_comm]
  refine ⟨hch, ?_, ?_⟩
  · simp only [mainFileStep, Bool.and_eq_true]
    exact and_congr Iff.rfl hch
  · simp only [mainFileStep, Bool.and_eq_true]
    exact and_congr Iff.rfl hch
